import Mathlib

set_option linter.unusedVariables false
set_option linter.unreachableTactic false
set_option linter.unusedTactic false

/-
Verification development for the agent gateway core of this repository:
the sandbox policy checks (web/backend/main.py `sandbox_check_tool`,
`is_path_in_sandbox`; examples/safe_sandbox.py `SecurityGuard`), the UTF-8
sanitizer, the metrics collector, and the per-turn SSE stream translator
(`process_agent_stream`).  Python functions are shallowly embedded as
executable Lean definitions; dictionaries become association lists, wall
clock timestamps become integers, floats become rationals.
-/

namespace PrismAgent

/-! ## Path model.

`Path(p).resolve()` followed by `relative_to(dir)` is modelled as lexical
component normalization followed by a list prefix test.  Symlink
resolution is not modelled (the spec states the policy resolves `..` only
via lexical path normalization); paths are POSIX style component lists. -/

/-- Python `str.split(sep)` for a one-character separator, on character
lists (kernel-reducible, unlike `String.splitOn`). -/
def splitOnChar (sep : Char) : List Char → List (List Char)
  | [] => [[]]
  | c :: cs =>
    if c = sep then [] :: splitOnChar sep cs
    else
      match splitOnChar sep cs with
      | r :: rs => (c :: r) :: rs
      | [] => [[c]]

/-- Split a path string on both separators, as the source does with
`file_path.replace("\\", "/").split("/")`. -/
def splitComps (fp : String) : List String :=
  (splitOnChar '/' (fp.toList.map (fun c => if c = '\\' then '/' else c))).map String.mk

/-- Python `str.lower()` (ASCII case folding, which covers every string
the policy compares). -/
def pyLower (s : String) : String := String.mk (s.toList.map Char.toLower)

/-- One step of lexical normalization: drop empty and `.` components,
pop on `..`. -/
def normStep (acc : List String) (c : String) : List String :=
  if c = "" ∨ c = "." then acc
  else if c = ".." then acc.dropLast
  else acc ++ [c]

def normalizeComps (cs : List String) : List String := cs.foldl normStep []

/-- Lexical model of `Path(fp).resolve()`: absolute paths are normalized,
relative paths are joined to the working directory first. -/
def resolvePath (cwd : List String) (fp : String) : List String :=
  if fp.toList.head? = some (Char.ofNat 47) then normalizeComps (splitComps fp)
  else normalizeComps (cwd ++ splitComps fp)

/-- `is_path_in_sandbox` (main.py): the resolved path must have one of the
allowed directories as a prefix (the successful `relative_to` case). -/
def is_path_in_sandbox (allowedDirs : List (List String)) (cwd : List String)
    (file_path : String) : Bool :=
  let path := resolvePath cwd file_path
  allowedDirs.any (fun d => d.isPrefixOf path)

/-! ## Tool input and string helpers. -/

/-- The fields of the tool input dictionaries that `sandbox_check_tool`
reads; a missing key is `none` (Python `dict.get` with default `""`). -/
structure ToolInput where
  file_path : Option String := none
  path : Option String := none
  pattern : Option String := none
  command : Option String := none
  content : Option String := none
deriving Repr, DecidableEq

/-- Python substring containment `sub in s`. -/
def pyIn (sub s : String) : Bool :=
  (s.toList.tails).any (fun t => sub.toList.isPrefixOf t)

/-- Python `a or b` on strings: the first operand unless it is falsy. -/
def pyOr (a b : String) : String := if a = "" then b else a

/-- `file_path.replace("\\", "/").split("/")[-1]`: the basename. -/
def basenameOf (fp : String) : String := (splitComps fp).getLastD ""

/-- The sensitive-file blacklist of `sandbox_check_tool` (main.py). -/
def sensitive_patterns : List String :=
  [".env", ".env.local", ".env.production", "credentials", "secrets"]

/-! ## `sandbox_check_tool` (main.py, lines 476-557).

Returns `(allowed, reason)`.  The regular-expression extraction of
absolute paths from a shell command (the three `path_patterns` plus the
Git-Bash `/c/` rewriting) is abstracted as the `extract_paths` parameter;
no claim depends on its internals, and every theorem below quantifies
over it. -/

def sandbox_check_tool (allowedDirs : List (List String)) (cwd : List String)
    (extract_paths : String → List String)
    (tool_name : String) (tool_input : ToolInput) : Bool × String :=
  if tool_name = "Read" ∨ tool_name = "Glob" ∨ tool_name = "Grep" then
    let file_path := pyOr (tool_input.file_path.getD "") (tool_input.path.getD "")
    let pattern := tool_input.pattern.getD ""
    let fileHit : Option String :=
      if file_path ≠ "" then
        let file_name := pyLower (basenameOf file_path)
        sensitive_patterns.find? (fun sen => pyIn (pyLower sen) file_name)
      else none
    let patHit : Option String :=
      if pattern ≠ "" then
        sensitive_patterns.find? (fun sen => pyIn (pyLower sen) (pyLower pattern))
      else none
    match fileHit with
    | some sen =>
        (false, "拒绝读取: " ++ pyLower (basenameOf file_path) ++
          " 是敏感文件 (黑名单: " ++ sen ++ ")")
    | none =>
        match patHit with
        | some _ => (false, "拒绝搜索: pattern " ++ pattern ++ " 可能匹配敏感文件")
        | none => (true, "")
  else if tool_name = "Write" ∨ tool_name = "Edit" then
    let file_path := tool_input.file_path.getD ""
    if file_path = "" then (false, "文件路径为空")
    else if ¬ is_path_in_sandbox allowedDirs cwd file_path then
      (false, "拒绝写入: " ++ file_path ++ " 不在允许的目录内")
    else (true, "")
  else if tool_name = "Bash" then
    let command := tool_input.command.getD ""
    if pyIn "../" command ∨ pyIn "..\\" command then
      (false, "拒绝执行: 禁止路径穿越 (../)")
    else
      match (extract_paths command).find?
          (fun p => ¬ is_path_in_sandbox allowedDirs cwd p) with
      | some p => (false, "拒绝执行: 路径 " ++ p ++ " 不在沙箱目录内")
      | none => (true, "")
  else if tool_name = "Task" then (true, "")
  else (true, "")

/-- Written from the amended wording of the read-family rule: the call is
denied exactly when the lowercased basename of the referenced path
contains one of the five sensitive patterns as a substring, or the
search pattern contains one of them case-insensitively. -/
def read_family_denied_spec (ti : ToolInput) : Prop :=
  (∃ sen ∈ sensitive_patterns,
    pyIn (pyLower sen)
      (pyLower (basenameOf (pyOr (ti.file_path.getD "") (ti.path.getD "")))) = true) ∨
  (∃ sen ∈ sensitive_patterns,
    pyIn (pyLower sen) (pyLower (ti.pattern.getD "")) = true)

instance (ti : ToolInput) : Decidable (read_family_denied_spec ti) := by
  unfold read_family_denied_spec; infer_instance

/-! ## `SecurityGuard` (examples/safe_sandbox.py).

The policy engine with rate limits.  Timestamps (`time.time()`) are
integers; the three rolling windows are timestamp lists. -/

inductive BlockReason
  | path_blacklist
  | path_not_in_whitelist
  | dangerous_command
  | sensitive_content
  | rate_limit_exceeded
  | extension_blocked
deriving Repr, DecidableEq

/-- The rate caps of `SecurityPolicy`; the path/command/content rule
fields feed only the abstracted later checks (see `check_operation`). -/
structure SecurityPolicy where
  max_operations_per_minute : Nat := 60
  max_writes_per_minute : Nat := 20
  max_bash_per_minute : Nat := 10
deriving Repr, DecidableEq

structure GuardState where
  operation_times : List Int := []
  write_times : List Int := []
  bash_times : List Int := []
deriving Repr, DecidableEq

/-- `SecurityGuard._cleanup_old_times`: drop timestamps not strictly
newer than `current_time - 60`. -/
def cleanup_old_times (current_time : Int) (s : GuardState) : GuardState :=
  { operation_times := s.operation_times.filter (fun t => current_time - 60 < t)
    write_times := s.write_times.filter (fun t => current_time - 60 < t)
    bash_times := s.bash_times.filter (fun t => current_time - 60 < t) }

inductive CheckOutcome
  | allow
  | deny (reason : BlockReason) (message : String)
deriving Repr, DecidableEq

def CheckOutcome.reason? : CheckOutcome → Option BlockReason
  | .allow => none
  | .deny r _ => some r

/-- `SecurityGuard.check_operation`.  Step 1 (rate limits) is embedded in
full; steps 2-4 (`_check_path`, `_check_command`, `_check_content`, which
need a filesystem and a regex engine) are abstracted as the
`later_checks` parameter, over which every theorem below quantifies.  On
allow the current timestamp is appended to the windows. -/
def check_operation (policy : SecurityPolicy)
    (later_checks : String → ToolInput → Option (BlockReason × String))
    (tool_name : String) (tool_input : ToolInput) (current_time : Int)
    (s0 : GuardState) : CheckOutcome × GuardState :=
  let s := cleanup_old_times current_time s0
  if policy.max_operations_per_minute ≤ s.operation_times.length then
    (.deny .rate_limit_exceeded "Too many operations per minute", s)
  else if tool_name = "Write" ∧ policy.max_writes_per_minute ≤ s.write_times.length then
    (.deny .rate_limit_exceeded "Too many write operations per minute", s)
  else if tool_name = "Bash" ∧ policy.max_bash_per_minute ≤ s.bash_times.length then
    (.deny .rate_limit_exceeded "Too many bash operations per minute", s)
  else
    match later_checks tool_name tool_input with
    | some rm => (.deny rm.1 rm.2, s)
    | none =>
        (.allow,
         { operation_times := s.operation_times ++ [current_time]
           write_times :=
             if tool_name = "Write" then s.write_times ++ [current_time] else s.write_times
           bash_times :=
             if tool_name = "Bash" then s.bash_times ++ [current_time] else s.bash_times })

/-! ## `sanitize_utf8_text` (main.py, lines 1073-1101).

`re.sub(r"�{1,4}", "", text)`: scanning left to right, each match
consumes one replacement character plus up to three more consecutive
ones. -/

def replacementChar : Char := Char.ofNat 0xFFFD

def sanitizeChars : List Char → List Char
  | [] => []
  | c :: cs =>
    if c = replacementChar then
      sanitizeChars (cs.drop (min (cs.takeWhile (fun d => d = replacementChar)).length 3))
    else
      c :: sanitizeChars cs
termination_by l => l.length
decreasing_by
  · simp only [List.length_drop, List.length_cons]; omega
  · simp only [List.length_cons]; omega

def sanitize_utf8_text (text : String) : String :=
  if text = "" then text
  else if ¬ text.toList.contains replacementChar then text
  else String.mk (sanitizeChars text.toList)

def hasFFFD (s : String) : Bool := s.toList.contains replacementChar

/-! ## `MetricsCollector` (main.py, lines 937-1061).

Latencies and time-to-first-token values are rationals (milliseconds). -/

structure MetricsState where
  requests_total : Nat := 0
  requests_success : Nat := 0
  requests_error : Nat := 0
  latencies : List ℚ := []
  ttft : List ℚ := []
  total_input : Nat := 0
  total_output : Nat := 0
  tool_calls : List (String × Nat) := []
  errors : List (String × Nat) := []
deriving Repr, DecidableEq

/-- `MetricsCollector.reset` (also the freshly constructed collector). -/
def metrics_reset : MetricsState := {}

def listSum (l : List ℚ) : ℚ := l.foldl (· + ·) 0

def listMin : List ℚ → ℚ
  | [] => 0
  | x :: xs => xs.foldl min x

def listMax : List ℚ → ℚ
  | [] => 0
  | x :: xs => xs.foldl max x

/-- `MetricsCollector._percentile`: linear interpolation on the sorted
data; 0 on an empty list. -/
def percentile (data : List ℚ) (p : ℚ) : ℚ :=
  if data = [] then 0
  else
    let sorted := data.mergeSort (fun a b => a ≤ b)
    let n := sorted.length
    let k : ℚ := ((n : ℚ) - 1) * p / 100
    let f : Nat := (⌊k⌋).toNat
    let c : Nat := if f + 1 < n then f + 1 else f
    sorted.getD f 0 + (sorted.getD c 0 - sorted.getD f 0) * (k - (f : ℚ))

/-- Python `round(x, 2)` (banker's rounding, ties to even). -/
def pyRound2 (q : ℚ) : ℚ :=
  let s := q * 100
  let f : Int := ⌊s⌋
  let r : Int :=
    if s - (f : ℚ) < 1 / 2 then f
    else if (1 : ℚ) / 2 < s - (f : ℚ) then f + 1
    else if f % 2 = 0 then f else f + 1
  (r : ℚ) / 100

structure MetricsSnapshot where
  requests_total : Nat
  requests_success : Nat
  requests_error : Nat
  success_rate : ℚ
  latency_avg : ℚ
  latency_min : ℚ
  latency_max : ℚ
  latency_p50 : ℚ
  latency_p95 : ℚ
  latency_p99 : ℚ
  ttft_avg : ℚ
  ttft_min : ℚ
  ttft_max : ℚ
  ttft_p50 : ℚ
  ttft_p95 : ℚ
  total_input : Nat
  total_output : Nat
deriving Repr, DecidableEq

/-- `MetricsCollector.get_metrics` (uptime/throughput and the top-10 tool
table are omitted: they depend on wall-clock uptime, which no claim
constrains). -/
def get_metrics (s : MetricsState) : MetricsSnapshot :=
  { requests_total := s.requests_total
    requests_success := s.requests_success
    requests_error := s.requests_error
    success_rate :=
      pyRound2 (if 0 < s.requests_total then
        (s.requests_success : ℚ) / (s.requests_total : ℚ) * 100 else 100)
    latency_avg :=
      pyRound2 (if s.latencies = [] then 0 else listSum s.latencies / (s.latencies.length : ℚ))
    latency_min := pyRound2 (if s.latencies = [] then 0 else listMin s.latencies)
    latency_max := pyRound2 (if s.latencies = [] then 0 else listMax s.latencies)
    latency_p50 := pyRound2 (percentile s.latencies 50)
    latency_p95 := pyRound2 (percentile s.latencies 95)
    latency_p99 := pyRound2 (percentile s.latencies 99)
    ttft_avg :=
      pyRound2 (if s.ttft = [] then 0 else listSum s.ttft / (s.ttft.length : ℚ))
    ttft_min := pyRound2 (if s.ttft = [] then 0 else listMin s.ttft)
    ttft_max := pyRound2 (if s.ttft = [] then 0 else listMax s.ttft)
    ttft_p50 := pyRound2 (percentile s.ttft 50)
    ttft_p95 := pyRound2 (percentile s.ttft 95)
    total_input := s.total_input
    total_output := s.total_output }

/-! ## Per-turn stream translator (`process_agent_stream`, main.py).

The inbound agent messages are tagged variants; the outbound SSE frames
are the `Frame` constructors.  Wall-clock data (durations, timestamps)
and the trace file contents are not modelled; the trace metadata status
is.  An inbound stream is modelled as the number of retriable failures
when opening it, the list of messages it delivers, and whether it then
ends normally or raises. -/

def MAX_RETRIES : Nat := 3
def INITIAL_RETRY_DELAY : ℚ := 1
def MAX_RETRY_DELAY : ℚ := 10
def MAX_TURNS : Nat := 30

structure Usage where
  input_tokens : Nat := 0
  output_tokens : Nat := 0
  cache_read_input_tokens : Nat := 0
  cache_creation_input_tokens : Nat := 0
deriving Repr, DecidableEq

inductive Block
  | thinking (text : String)
  | text (text : String)
  | toolUse (id : String) (name : String) (input : ToolInput)
  | toolResult (tool_use_id : String) (content : String) (is_error : Bool)
deriving Repr, DecidableEq

inductive Msg
  | init
  | assistant (content : List Block)
  | success (result : Option String) (is_error : Bool) (num_turns : Nat)
      (usage : Option Usage)
deriving Repr, DecidableEq

inductive HookEvent
  | pre_tool (tool_name action message : String)
  | post_tool (tool_name message : String)
deriving Repr, DecidableEq

inductive Frame
  | session_config
  | text_delta (text : String)
  | thinking_delta (thinking : String)
  | tool_start (tool_id name : String) (iteration : Nat)
  | tool_result (tool_id : String) (is_error : Bool)
  | agent_spawn (agent_id : String) (iteration depth : Nat)
  | agent_complete (agent_id : String)
  | hook_pre_tool (tool_name action message : String)
  | hook_post_tool (tool_name message : String)
  | cost_update (input_tokens output_tokens : Nat)
  | message_complete (tools_used : List String) (total_tokens : Nat)
      (stop_reason : Option String)
  | error (message : String)
deriving Repr, DecidableEq

structure ToolRec where
  name : String
  iteration : Nat
  parallel_group : Option Nat
deriving Repr, DecidableEq

structure TurnState where
  current_text : String := ""
  tools_used : List String := []
  total_input_tokens : Nat := 0
  total_output_tokens : Nat := 0
  tool_states : List (String × ToolRec) := []
  current_iteration : Nat := 0
  current_depth : Nat := 0
  stop_reason : Option String := none
  hook_events_queue : List HookEvent := []
  first_token_recorded : Bool := false
  parallel_counter : Nat := 0
deriving Repr, DecidableEq

def initialTurnState : TurnState := {}

/-- Python dict assignment `tool_states[tool_id] = rec`. -/
def assocSet (m : List (String × ToolRec)) (k : String) (v : ToolRec) :
    List (String × ToolRec) :=
  if m.any (fun kv => kv.1 = k) then
    m.map (fun kv => if kv.1 = k then (k, v) else kv)
  else m ++ [(k, v)]

/-- Stop-reason inference on a `success` message (main.py, lines
1420-1427). -/
def infer_stop_reason (is_error : Bool) (num_turns : Nat) : String :=
  if is_error then "error"
  else if MAX_TURNS ≤ num_turns then "max_turns"
  else "end_turn"

def hookFrame : HookEvent → Frame
  | .pre_tool n a m => .hook_pre_tool n a m
  | .post_tool n m => .hook_post_tool n m

/-- Per-assistant-message context: parallel batch detection (main.py,
lines 1490-1493); the uuid for a parallel group is modelled by a
per-turn counter. -/
structure BatchCtx where
  is_parallel : Bool
  group_id : Option Nat
deriving Repr, DecidableEq

/-- One content block of an assistant message (main.py, lines
1495-1673). -/
def processBlock (ctx : BatchCtx) (s : TurnState) : Block → TurnState × List Frame
  | .thinking t =>
    if t ≠ "" then
      let t2 := sanitize_utf8_text t
      if t2 ≠ "" then (s, [.thinking_delta t2]) else (s, [])
    else (s, [])
  | .text t =>
    if t ≠ "" ∧ t ≠ s.current_text then
      let delta := sanitize_utf8_text (String.mk (t.toList.drop s.current_text.length))
      if delta ≠ "" then
        ({ s with current_text := t, first_token_recorded := true },
         [Frame.text_delta delta])
      else ({ s with first_token_recorded := true }, [])
    else (s, [])
  | .toolUse id name input =>
    let s1 :=
      if s.tool_states = [] ∨ s.current_text ≠ "" then
        { s with current_iteration := s.current_iteration + 1, current_text := "" }
      else s
    let s2 := { s1 with
      tool_states := assocSet s1.tool_states id
        ⟨name, s1.current_iteration, ctx.group_id⟩
      tools_used := s1.tools_used ++ [name] }
    if name = "Task" then
      let s3 := { s2 with current_depth := s2.current_depth + 1 }
      (s3, [.agent_spawn id s3.current_iteration s3.current_depth])
    else
      let drained := s2.hook_events_queue.map hookFrame
      let s3 := { s2 with hook_events_queue := [] }
      (s3, drained ++ [.tool_start id name s3.current_iteration])
  | .toolResult tid content is_error =>
    let info := s.tool_states.lookup tid
    let tool_name := (info.map ToolRec.name).getD ""
    if tool_name = "Task" ∧ 0 < s.current_depth then
      ({ s with current_depth := s.current_depth - 1 },
       [Frame.tool_result tid is_error, Frame.agent_complete tid])
    else (s, [Frame.tool_result tid is_error])

def processBlocks (ctx : BatchCtx) (s : TurnState) :
    List Block → TurnState × List Frame
  | [] => (s, [])
  | b :: bs =>
    let p := processBlock ctx s b
    let q := processBlocks ctx p.1 bs
    (q.1, p.2 ++ q.2)

def isToolUseBlock : Block → Bool
  | .toolUse _ _ _ => true
  | _ => false

/-- One inbound message (main.py, lines 1405-1673). -/
def processMsg (s : TurnState) : Msg → TurnState × List Frame
  | .init => (s, [])
  | .assistant content =>
    if content = [] then (s, [])
    else
      let tool_blocks := content.filter isToolUseBlock
      if 1 < tool_blocks.length then
        processBlocks ⟨true, some s.parallel_counter⟩
          { s with parallel_counter := s.parallel_counter + 1 } content
      else
        processBlocks ⟨false, none⟩ s content
  | .success result is_error num_turns usage =>
    let s1 := { s with stop_reason := some (infer_stop_reason is_error num_turns) }
    let p :=
      match result with
      | some rt =>
        if rt ≠ "" ∧ rt ≠ s1.current_text then
          let delta := sanitize_utf8_text (String.mk (rt.toList.drop s1.current_text.length))
          if delta ≠ "" then ({ s1 with current_text := rt }, [Frame.text_delta delta])
          else (s1, ([] : List Frame))
        else (s1, [])
      | none => (s1, [])
    match usage with
    | some u =>
      ({ p.1 with total_input_tokens := u.input_tokens
                  total_output_tokens := u.output_tokens },
       p.2 ++ [Frame.cost_update u.input_tokens u.output_tokens])
    | none => p

def processMsgs (s : TurnState) : List Msg → TurnState × List Frame
  | [] => (s, [])
  | m :: ms =>
    let p := processMsg s m
    let q := processMsgs p.1 ms
    (q.1, p.2 ++ q.2)

/-! ## Retry loop and turn driver (main.py, lines 1225-1718). -/

/-- The delay before the k-th retry,
`min(INITIAL_RETRY_DELAY * 2 ** (retry_count - 1), MAX_RETRY_DELAY)`. -/
def retry_delay (k : Nat) : ℚ :=
  min (INITIAL_RETRY_DELAY * 2 ^ (k - 1)) MAX_RETRY_DELAY

/-- The same delay as a natural number: with `INITIAL_RETRY_DELAY = 1`
and `MAX_RETRY_DELAY = 10` every realized delay is integral (the
agreement with `retry_delay` is proved below). -/
def retry_delay_nat (k : Nat) : Nat := min (2 ^ (k - 1)) 10

/-- Python `f"{delay:.1f}"` for the integral delays that occur here. -/
def fmtDelay1 (d : Nat) : String := toString d ++ ".0"

/-- The `text_delta` notice emitted before the k-th retry. -/
def retry_notice (k : Nat) : String :=
  "\n[连接重试 " ++ toString k ++ "/" ++ toString MAX_RETRIES ++
  "，等待 " ++ fmtDelay1 (retry_delay_nat k) ++ "s...]\n"

def retryNotices (failures : Nat) : List Frame :=
  (List.range (min failures MAX_RETRIES)).map (fun i => .text_delta (retry_notice (i + 1)))

/-- How the inbound message iteration ends: normally, or by raising. -/
inductive StreamEnd
  | ok
  | exc (message : String)
deriving Repr, DecidableEq

inductive TraceStatus
  | running
  | completed
  | error
deriving Repr, DecidableEq

/-- The whole turn: `session_config`, the retry loop when opening the
inbound stream (`failures` retriable failures before it opens), the
message loop, and the terminal frame.  Returns the emitted frames and
the final trace metadata status (`tracer.complete` on the normal path,
`tracer.log_error` on the exception path, both called before the
terminal frame is yielded). -/
def process_agent_stream (failures : Nat) (msgs : List Msg) (send : StreamEnd) :
    List Frame × TraceStatus :=
  let pre := Frame.session_config :: retryNotices failures
  if MAX_RETRIES < failures then
    (pre ++ [Frame.error "retries exhausted"], .error)
  else
    let p := processMsgs initialTurnState msgs
    match send with
    | .ok =>
      (pre ++ p.2 ++
        [Frame.message_complete p.1.tools_used.dedup
          (p.1.total_input_tokens + p.1.total_output_tokens) p.1.stop_reason],
       .completed)
    | .exc e => (pre ++ p.2 ++ [Frame.error e], .error)

def isTerminal : Frame → Bool
  | .message_complete _ _ _ => true
  | .error _ => true
  | _ => false

/-- The `iteration` field carried by tool-related SSE frames. -/
def frameIteration? : Frame → Option Nat
  | .tool_start _ _ it => some it
  | .agent_spawn _ it _ => some it
  | _ => none

def toolIters (fs : List Frame) : List Nat := fs.filterMap frameIteration?

/-- The payload of a `text_delta` or `thinking_delta` frame. -/
def deltaText? : Frame → Option String
  | .text_delta t => some t
  | .thinking_delta t => some t
  | _ => none

end PrismAgent

namespace PrismAgent

/-! # Theorems -/

/-- Auxiliary: a `find?` over the sensitive patterns is `none` iff no
pattern hits. -/
theorem sensitive_find_none (f : String → Bool) :
    sensitive_patterns.find? f = none ↔ ∀ sen ∈ sensitive_patterns, ¬ f sen = true := by
  simp [List.find?_eq_none]

/-- Auxiliary: no sensitive pattern is a substring of the empty string. -/
theorem sensitive_not_in_empty :
    ∀ sen ∈ sensitive_patterns, pyIn (pyLower sen) "" = false := by decide

/-- Auxiliary: the basename of the empty path is empty. -/
theorem basenameOf_empty : basenameOf "" = "" := by decide

/-- Auxiliary: lowercasing the empty string gives the empty string. -/
theorem pyLower_empty : pyLower "" = "" := rfl

/-- C9: a `Write` or `Edit` sandbox check with a missing or empty
`file_path` is denied with the empty-path reason; it does not fall
through to the containment check or allow by default. -/
theorem write_family_empty_path_denied
    (allowedDirs : List (List String)) (cwd : List String)
    (extract_paths : String → List String) (tool_name : String) (ti : ToolInput)
    (hname : tool_name = "Write" ∨ tool_name = "Edit")
    (hfp : ti.file_path.getD "" = "") :
    sandbox_check_tool allowedDirs cwd extract_paths tool_name ti =
      (false, "文件路径为空") := by
  rcases hname with h | h <;> subst h <;>
    simp [sandbox_check_tool, hfp]

/-- C9 witness: an `Edit` with no `file_path` field at all is denied. -/
theorem write_family_empty_path_denied_witness :
    sandbox_check_tool [["home", "sandbox"]] ["home"] (fun _ => []) "Edit"
      ({} : ToolInput) = (false, "文件路径为空") :=
  write_family_empty_path_denied [["home", "sandbox"]] ["home"] (fun _ => [])
    "Edit" {} (Or.inr rfl) (by decide)

/-- C3: a `Write` or `Edit` check with a non-empty target path is allowed
iff the lexically resolved target path has one of the allowed root
directories as a prefix. -/
theorem write_family_allowed_iff_in_allowed_roots
    (allowedDirs : List (List String)) (cwd : List String)
    (extract_paths : String → List String) (tool_name : String) (ti : ToolInput)
    (hname : tool_name = "Write" ∨ tool_name = "Edit")
    (hfp : ti.file_path.getD "" ≠ "") :
    (sandbox_check_tool allowedDirs cwd extract_paths tool_name ti).1 = true ↔
      ∃ d ∈ allowedDirs, d.isPrefixOf (resolvePath cwd (ti.file_path.getD "")) = true := by
  rcases hname with h | h <;> subst h <;>
    · simp only [sandbox_check_tool, is_path_in_sandbox]
      rw [if_neg (by decide), if_pos (by decide), if_neg hfp]
      by_cases hin :
          allowedDirs.any (fun d => d.isPrefixOf (resolvePath cwd (ti.file_path.getD ""))) = true
      · rw [if_neg (by simp [hin])]
        simpa [List.any_eq_true] using hin
      · rw [if_pos (by simp [hin])]
        simp only [List.any_eq_true] at hin
        simpa using hin

/-- C3 witness: a `Write` targeting a file inside the sandbox root is
allowed, evaluated concretely through the theorem. -/
theorem write_family_allowed_iff_in_allowed_roots_witness :
    (sandbox_check_tool [["home", "sandbox"]] ["home"] (fun _ => []) "Write"
      { file_path := some "/home/sandbox/report.html" }).1 = true :=
  (write_family_allowed_iff_in_allowed_roots [["home", "sandbox"]] ["home"]
    (fun _ => []) "Write" { file_path := some "/home/sandbox/report.html" }
    (Or.inl rfl) (by decide)).mpr (by decide)

/-- C2 counterexample: the claim says a `Read` whose target basename
contains "password" or "token" is denied, but the sensitive-file
blacklist of `sandbox_check_tool` is [".env", ".env.local",
".env.production", "credentials", "secrets"], so both reads are
allowed. -/
theorem read_password_token_allowed_counterexample :
    (sandbox_check_tool [["home", "sandbox"]] ["home"] (fun _ => []) "Read"
      { file_path := some "/tmp/password.txt" }).1 = true ∧
    (sandbox_check_tool [["home", "sandbox"]] ["home"] (fun _ => []) "Read"
      { file_path := some "/tmp/token.txt" }).1 = true ∧
    pyIn "password" (pyLower (basenameOf "/tmp/password.txt")) = true ∧
    pyIn "token" (pyLower (basenameOf "/tmp/token.txt")) = true := by decide

/-- C2 (amended): a `Read`, `Glob` or `Grep` check is allowed iff neither
the lowercased basename of the referenced path nor the search pattern
(case-insensitively) contains one of the five blacklisted sensitive
names `.env`, `.env.local`, `.env.production`, `credentials`,
`secrets`. -/
theorem read_family_allowed_iff_not_sensitive
    (allowedDirs : List (List String)) (cwd : List String)
    (extract_paths : String → List String) (tool_name : String) (ti : ToolInput)
    (hname : tool_name = "Read" ∨ tool_name = "Glob" ∨ tool_name = "Grep") :
    (sandbox_check_tool allowedDirs cwd extract_paths tool_name ti).1 = true ↔
      ¬ read_family_denied_spec ti := by
  have main : ∀ tn, tn = "Read" ∨ tn = "Glob" ∨ tn = "Grep" →
      ((sandbox_check_tool allowedDirs cwd extract_paths tn ti).1 = true ↔
        ¬ read_family_denied_spec ti) := by
    intro tn htn
    simp only [sandbox_check_tool, if_pos htn]
    split
    case _ sen heq =>
      constructor
      · intro h; exact absurd h (by simp)
      · intro hden
        exfalso
        apply hden
        left
        by_cases hfp : pyOr (ti.file_path.getD "") (ti.path.getD "") = ""
        · rw [if_neg (by simp [hfp])] at heq
          exact absurd heq (by simp)
        · rw [if_pos hfp] at heq
          exact ⟨sen, List.mem_of_find?_eq_some heq, by simpa using List.find?_some heq⟩
    case _ hfile =>
      split
      case _ sen2 heq2 =>
        constructor
        · intro h; exact absurd h (by simp)
        · intro hden
          exfalso
          apply hden
          right
          by_cases hp : ti.pattern.getD "" = ""
          · rw [if_neg (by simp [hp])] at heq2
            exact absurd heq2 (by simp)
          · rw [if_pos hp] at heq2
            exact ⟨sen2, List.mem_of_find?_eq_some heq2, by simpa using List.find?_some heq2⟩
      case _ hpat =>
        simp only [true_iff]
        intro hden
        rcases hden with ⟨sen, hmem, hhit⟩ | ⟨sen, hmem, hhit⟩
        · by_cases hfp : pyOr (ti.file_path.getD "") (ti.path.getD "") = ""
          · rw [hfp, basenameOf_empty] at hhit
            exact absurd hhit (by simpa [pyLower_empty] using sensitive_not_in_empty sen hmem)
          · rw [if_pos hfp] at hfile
            exact absurd hhit (by
              simpa using List.find?_eq_none.mp hfile sen hmem)
        · by_cases hp : ti.pattern.getD "" = ""
          · rw [hp] at hhit
            exact absurd hhit (by simpa [pyLower_empty] using sensitive_not_in_empty sen hmem)
          · rw [if_pos hp] at hpat
            exact absurd hhit (by
              simpa using List.find?_eq_none.mp hpat sen hmem)
  exact main tool_name hname

/-- C2 witness: a `Grep` whose pattern mentions `credentials` is denied,
and a `Read` of an ordinary path is allowed, both evaluated through the
amended characterization. -/
theorem read_family_allowed_iff_not_sensitive_witness :
    (sandbox_check_tool [["home", "sandbox"]] ["home"] (fun _ => []) "Grep"
      { pattern := some "Credentials_*" }).1 ≠ true ∧
    (sandbox_check_tool [["home", "sandbox"]] ["home"] (fun _ => []) "Read"
      { file_path := some "/home/sandbox/notes.md" }).1 = true :=
  ⟨fun h => (by decide :
      ¬ ¬ read_family_denied_spec { pattern := some "Credentials_*" })
      ((read_family_allowed_iff_not_sensitive [["home", "sandbox"]] ["home"]
        (fun _ => []) "Grep" { pattern := some "Credentials_*" }
        (Or.inr (Or.inr rfl))).mp h),
   (read_family_allowed_iff_not_sensitive [["home", "sandbox"]] ["home"]
      (fun _ => []) "Read" { file_path := some "/home/sandbox/notes.md" }
      (Or.inl rfl)).mpr (by decide)⟩

/-- C1: the guard keeps three rolling 60-second windows; after pruning,
every retained timestamp is newer than `current_time - 60`, and whenever
the pruned window of a kind (all operations, writes, shell) already
holds at least its cap, the next check of that kind is denied with
`rate_limit_exceeded` — for any outcome of the path/command/content
checks. -/
theorem security_guard_rate_limit_enforced
    (policy : SecurityPolicy)
    (later_checks : String → ToolInput → Option (BlockReason × String))
    (tool_name : String) (tool_input : ToolInput) (current_time : Int)
    (s0 : GuardState) :
    (∀ t ∈ (cleanup_old_times current_time s0).operation_times, current_time - 60 < t) ∧
    (policy.max_operations_per_minute ≤
        (cleanup_old_times current_time s0).operation_times.length →
      (check_operation policy later_checks tool_name tool_input current_time s0).1.reason? =
        some BlockReason.rate_limit_exceeded) ∧
    (tool_name = "Write" →
      policy.max_writes_per_minute ≤
        (cleanup_old_times current_time s0).write_times.length →
      (check_operation policy later_checks tool_name tool_input current_time s0).1.reason? =
        some BlockReason.rate_limit_exceeded) ∧
    (tool_name = "Bash" →
      policy.max_bash_per_minute ≤
        (cleanup_old_times current_time s0).bash_times.length →
      (check_operation policy later_checks tool_name tool_input current_time s0).1.reason? =
        some BlockReason.rate_limit_exceeded) := by
  refine ⟨?_, ?_, ?_, ?_⟩
  · intro t ht
    simp only [cleanup_old_times, List.mem_filter, decide_eq_true_eq] at ht
    exact ht.2
  · intro h
    simp only [check_operation]
    rw [if_pos h]
    rfl
  · intro hw h
    simp only [check_operation]
    by_cases h1 : policy.max_operations_per_minute ≤
        (cleanup_old_times current_time s0).operation_times.length
    · rw [if_pos h1]; rfl
    · rw [if_neg h1, if_pos ⟨hw, h⟩]; rfl
  · intro hb h
    simp only [check_operation]
    by_cases h1 : policy.max_operations_per_minute ≤
        (cleanup_old_times current_time s0).operation_times.length
    · rw [if_pos h1]; rfl
    · rw [if_neg h1]
      by_cases h2 : tool_name = "Write" ∧ policy.max_writes_per_minute ≤
          (cleanup_old_times current_time s0).write_times.length
      · rw [if_pos h2]; rfl
      · rw [if_neg h2, if_pos ⟨hb, h⟩]; rfl

/-- C1 witness: with the default caps, a `Bash` check finding 10 shell
timestamps inside the window is denied with `rate_limit_exceeded`. -/
theorem security_guard_rate_limit_enforced_witness :
    (check_operation {} (fun _ _ => none) "Bash" {} 100
      ⟨List.replicate 30 50, [], List.replicate 10 90⟩).1.reason? =
      some BlockReason.rate_limit_exceeded :=
  (security_guard_rate_limit_enforced {} (fun _ _ => none) "Bash" {} 100
    ⟨List.replicate 30 50, [], List.replicate 10 90⟩).2.2.2 rfl (by decide)

/-- C10: a metrics snapshot taken with zero recorded requests (and hence
empty latency and TTFT lists, as immediately after `reset`) reports
`success_rate = 100`, and every latency and TTFT statistic is 0. -/
theorem metrics_zero_requests_snapshot (s : MetricsState)
    (h0 : s.requests_total = 0) (hl : s.latencies = []) (ht : s.ttft = []) :
    (get_metrics s).success_rate = 100 ∧
    (get_metrics s).latency_avg = 0 ∧ (get_metrics s).latency_min = 0 ∧
    (get_metrics s).latency_max = 0 ∧ (get_metrics s).latency_p50 = 0 ∧
    (get_metrics s).latency_p95 = 0 ∧ (get_metrics s).latency_p99 = 0 ∧
    (get_metrics s).ttft_avg = 0 ∧ (get_metrics s).ttft_min = 0 ∧
    (get_metrics s).ttft_max = 0 ∧ (get_metrics s).ttft_p50 = 0 ∧
    (get_metrics s).ttft_p95 = 0 := by
  have h100 : pyRound2 100 = 100 := by norm_num [pyRound2]
  have hz : pyRound2 0 = 0 := by norm_num [pyRound2]
  simp [get_metrics, h0, hl, ht, percentile, h100, hz]

/-- C10 witness: the snapshot of the reset collector, evaluated through
the theorem. -/
theorem metrics_zero_requests_snapshot_witness :
    (get_metrics metrics_reset).success_rate = 100 ∧
    (get_metrics metrics_reset).latency_p99 = 0 :=
  ⟨(metrics_zero_requests_snapshot metrics_reset rfl rfl rfl).1,
   (metrics_zero_requests_snapshot metrics_reset rfl rfl rfl).2.2.2.2.2.2.1⟩

/-! ## Stream translator lemmas. -/

theorem isTerminal_hookFrame (e : HookEvent) : isTerminal (hookFrame e) = false := by
  cases e <;> rfl

theorem deltaText?_hookFrame (e : HookEvent) : deltaText? (hookFrame e) = none := by
  cases e <;> rfl

theorem frameIteration?_hookFrame (e : HookEvent) : frameIteration? (hookFrame e) = none := by
  cases e <;> rfl

theorem toolIters_append (fs gs : List Frame) :
    toolIters (fs ++ gs) = toolIters fs ++ toolIters gs := by
  simp [toolIters]

theorem processMsgs_append (s : TurnState) (as bs : List Msg) :
    processMsgs s (as ++ bs) =
      ((processMsgs (processMsgs s as).1 bs).1,
       (processMsgs s as).2 ++ (processMsgs (processMsgs s as).1 bs).2) := by
  induction as generalizing s with
  | nil => simp [processMsgs]
  | cons a as ih => simp [processMsgs, ih]

/-- The sanitizer output never contains the replacement character. -/
theorem sanitizeChars_no_fffd (l : List Char) : replacementChar ∉ sanitizeChars l := by
  have main : ∀ n l, List.length l ≤ n → replacementChar ∉ sanitizeChars l := by
    intro n
    induction n with
    | zero =>
      intro l hl
      have : l = [] := by cases l with
        | nil => rfl
        | cons c cs => simp at hl
      subst this
      simp [sanitizeChars]
    | succ n ih =>
      intro l hl
      match l with
      | [] => simp [sanitizeChars]
      | c :: cs =>
        rw [sanitizeChars]
        by_cases hc : c = replacementChar
        · rw [if_pos hc]
          refine ih _ ?_
          simp only [List.length_drop]
          simp only [List.length_cons] at hl
          omega
        · rw [if_neg hc]
          intro hmem
          rcases List.mem_cons.mp hmem with h | h
          · exact hc h.symm
          · exact ih cs (by simp only [List.length_cons] at hl; omega) h
  exact main l.length l le_rfl

theorem sanitize_utf8_text_no_fffd (s : String) :
    hasFFFD (sanitize_utf8_text s) = false := by
  unfold sanitize_utf8_text
  split
  case _ h => subst h; rfl
  split
  case _ h =>
    simp only [hasFFFD]
    exact Bool.not_eq_true _ ▸ (by simpa using h)
  case _ h =>
    simp only [hasFFFD]
    simpa using sanitizeChars_no_fffd s.toList

theorem processBlocks_cons (ctx : BatchCtx) (s : TurnState) (b : Block) (bs : List Block) :
    processBlocks ctx s (b :: bs) =
      ((processBlocks ctx (processBlock ctx s b).1 bs).1,
       (processBlock ctx s b).2 ++ (processBlocks ctx (processBlock ctx s b).1 bs).2) := rfl

theorem processMsgs_cons (s : TurnState) (m : Msg) (ms : List Msg) :
    processMsgs s (m :: ms) =
      ((processMsgs (processMsg s m).1 ms).1,
       (processMsg s m).2 ++ (processMsgs (processMsg s m).1 ms).2) := rfl

/-- No frame emitted while handling a single content block is terminal. -/
theorem processBlock_not_terminal (ctx : BatchCtx) (s : TurnState) (b : Block) :
    ∀ f ∈ (processBlock ctx s b).2, isTerminal f = false := by
  intro f hf
  cases b with
  | thinking t =>
    simp only [processBlock] at hf
    split_ifs at hf <;> simp_all [isTerminal]
  | text t =>
    simp only [processBlock] at hf
    split_ifs at hf <;> simp_all [isTerminal]
  | toolUse id name input =>
    simp only [processBlock] at hf
    split_ifs at hf
    all_goals
      first
      | (simp only [List.mem_singleton] at hf; subst hf; rfl)
      | (simp only [List.mem_append, List.mem_map, List.mem_singleton] at hf
         rcases hf with ⟨e, he, rfl⟩ | rfl
         · exact isTerminal_hookFrame e
         · rfl)
  | toolResult tid content is_error =>
    simp only [processBlock] at hf
    split_ifs at hf <;>
      simp only [List.mem_cons, List.mem_singleton, List.not_mem_nil, or_false] at hf <;>
      first
        | (rcases hf with rfl | rfl <;> rfl)
        | (subst hf; rfl)

theorem processBlocks_not_terminal (ctx : BatchCtx) (s : TurnState) (bs : List Block) :
    ∀ f ∈ (processBlocks ctx s bs).2, isTerminal f = false := by
  induction bs generalizing s with
  | nil => simp [processBlocks]
  | cons b bs ih =>
    intro f hf
    rw [processBlocks_cons] at hf
    rcases List.mem_append.mp hf with h | h
    · exact processBlock_not_terminal ctx s b f h
    · exact ih _ f h

theorem processMsg_not_terminal (s : TurnState) (m : Msg) :
    ∀ f ∈ (processMsg s m).2, isTerminal f = false := by
  intro f hf
  cases m with
  | init => simp [processMsg] at hf
  | assistant content =>
    simp only [processMsg] at hf
    split_ifs at hf
    · simp at hf
    · exact processBlocks_not_terminal _ _ _ f hf
    · exact processBlocks_not_terminal _ _ _ f hf
  | success r e n u =>
    rcases u with _ | u <;> rcases r with _ | rt <;> simp only [processMsg] at hf
    · simp at hf
    · split_ifs at hf <;> simp_all [isTerminal]
    · simp only [List.nil_append, List.mem_singleton] at hf
      subst hf; rfl
    · split_ifs at hf <;>
        simp only [List.mem_append, List.mem_singleton, List.nil_append,
          List.mem_cons, List.not_mem_nil, or_false, false_or] at hf <;>
        first
          | (rcases hf with rfl | rfl <;> rfl)
          | (subst hf; rfl)

theorem processMsgs_not_terminal (s : TurnState) (msgs : List Msg) :
    ∀ f ∈ (processMsgs s msgs).2, isTerminal f = false := by
  induction msgs generalizing s with
  | nil => simp [processMsgs]
  | cons m ms ih =>
    intro f hf
    rw [processMsgs_cons] at hf
    rcases List.mem_append.mp hf with h | h
    · exact processMsg_not_terminal s m f h
    · exact ih _ f h

theorem retryNotices_not_terminal (n : Nat) :
    ∀ f ∈ retryNotices n, isTerminal f = false := by
  intro f hf
  simp only [retryNotices, List.mem_map, List.mem_range] at hf
  rcases hf with ⟨i, _, rfl⟩
  rfl

theorem hookFrames_no_iters (q : List HookEvent) :
    List.filterMap frameIteration? (q.map hookFrame) = [] := by
  induction q with
  | nil => rfl
  | cons e q ih => simp [List.filterMap_cons, frameIteration?_hookFrame e, ih]

/-- One block never lowers the iteration counter, and it emits at most
one iteration-carrying frame, stamped with the post-state counter. -/
theorem processBlock_iters (ctx : BatchCtx) (s : TurnState) (b : Block) :
    s.current_iteration ≤ (processBlock ctx s b).1.current_iteration ∧
    (toolIters (processBlock ctx s b).2 = [] ∨
      toolIters (processBlock ctx s b).2 =
        [(processBlock ctx s b).1.current_iteration]) := by
  cases b with
  | thinking t =>
    simp only [processBlock]
    split_ifs <;> simp [toolIters, frameIteration?]
  | text t =>
    simp only [processBlock]
    split_ifs <;> simp [toolIters, frameIteration?]
  | toolUse id name input =>
    simp only [processBlock]
    split_ifs <;> refine ⟨by simp <;> omega, Or.inr ?_⟩ <;>
      first
        | (simp [toolIters, frameIteration?]; done)
        | (simp only [toolIters, List.filterMap_append, hookFrames_no_iters,
             List.nil_append]
           simp [frameIteration?])
  | toolResult tid content is_error =>
    simp only [processBlock]
    split_ifs <;> simp [toolIters, frameIteration?]

/-- Iterations on the frames of a block list are sorted and bounded by
the counters before and after. -/
theorem processBlocks_iters (ctx : BatchCtx) (s : TurnState) (bs : List Block) :
    s.current_iteration ≤ (processBlocks ctx s bs).1.current_iteration ∧
    List.Chain' (· ≤ ·) (toolIters (processBlocks ctx s bs).2) ∧
    ∀ i ∈ toolIters (processBlocks ctx s bs).2,
      s.current_iteration ≤ i ∧ i ≤ (processBlocks ctx s bs).1.current_iteration := by
  induction bs generalizing s with
  | nil => simp [processBlocks, toolIters]
  | cons b bs ih =>
    obtain ⟨hle, hshape⟩ := processBlock_iters ctx s b
    obtain ⟨ihle, ihchain, ihmem⟩ := ih (processBlock ctx s b).1
    rw [processBlocks_cons]
    dsimp only
    refine ⟨le_trans hle ihle, ?_, ?_⟩
    · rw [toolIters_append]
      rcases hshape with h | h
      · rw [h]; simpa using ihchain
      · rw [h]
        refine List.chain'_cons'.mpr ⟨?_, ihchain⟩
        intro y hy
        exact (ihmem y (List.mem_of_mem_head? hy)).1
    · intro i hi
      rw [toolIters_append] at hi
      rcases List.mem_append.mp hi with hi | hi
      · rcases hshape with h | h
        · rw [h] at hi; simp at hi
        · rw [h] at hi
          simp only [List.mem_singleton] at hi
          subst hi
          exact ⟨hle, ihle⟩
      · obtain ⟨h1, h2⟩ := ihmem i hi
        exact ⟨le_trans hle h1, h2⟩

theorem processMsg_iters (s : TurnState) (m : Msg) :
    s.current_iteration ≤ (processMsg s m).1.current_iteration ∧
    List.Chain' (· ≤ ·) (toolIters (processMsg s m).2) ∧
    ∀ i ∈ toolIters (processMsg s m).2,
      s.current_iteration ≤ i ∧ i ≤ (processMsg s m).1.current_iteration := by
  cases m with
  | init => simp [processMsg, toolIters]
  | assistant content =>
    simp only [processMsg]
    split_ifs
    · simp [toolIters]
    · exact processBlocks_iters ⟨true, some s.parallel_counter⟩
        { s with parallel_counter := s.parallel_counter + 1 } content
    · exact processBlocks_iters ⟨false, none⟩ s content
  | success r e n u =>
    have hz : (processMsg s (.success r e n u)).1.current_iteration =
        s.current_iteration ∧ toolIters (processMsg s (.success r e n u)).2 = [] := by
      rcases u with _ | u <;> rcases r with _ | rt <;> simp only [processMsg] <;>
        (try split_ifs) <;> simp [toolIters, frameIteration?]
    refine ⟨le_of_eq hz.1.symm, ?_, ?_⟩
    · rw [hz.2]; exact List.chain'_nil
    · intro i hi; rw [hz.2] at hi; simp at hi

theorem processMsgs_iters (s : TurnState) (msgs : List Msg) :
    s.current_iteration ≤ (processMsgs s msgs).1.current_iteration ∧
    List.Chain' (· ≤ ·) (toolIters (processMsgs s msgs).2) ∧
    ∀ i ∈ toolIters (processMsgs s msgs).2,
      s.current_iteration ≤ i ∧ i ≤ (processMsgs s msgs).1.current_iteration := by
  induction msgs generalizing s with
  | nil => simp [processMsgs, toolIters]
  | cons m ms ih =>
    obtain ⟨hle, hchain, hmem⟩ := processMsg_iters s m
    obtain ⟨ihle, ihchain, ihmem⟩ := ih (processMsg s m).1
    rw [processMsgs_cons]
    dsimp only
    refine ⟨le_trans hle ihle, ?_, ?_⟩
    · rw [toolIters_append]
      rw [List.chain'_append]
      refine ⟨hchain, ihchain, ?_⟩
      intro x hx y hy
      have hx2 := hmem x (List.mem_of_mem_getLast? hx)
      have hy2 := ihmem y (List.mem_of_mem_head? hy)
      exact le_trans hx2.2 hy2.1
    · intro i hi
      rw [toolIters_append] at hi
      rcases List.mem_append.mp hi with hi | hi
      · obtain ⟨h1, h2⟩ := hmem i hi
        exact ⟨h1, le_trans h2 ihle⟩
      · obtain ⟨h1, h2⟩ := ihmem i hi
        exact ⟨le_trans hle h1, h2⟩

/-- While no tool-use block has been seen (empty `tool_states`, iteration
0), processing either keeps that situation with no iteration-carrying
frames, or the first iteration-carrying frame is stamped 1. -/
theorem processBlock_first (ctx : BatchCtx) (s : TurnState) (b : Block)
    (hts : s.tool_states = []) (hit : s.current_iteration = 0) :
    ((processBlock ctx s b).1.tool_states = [] ∧
     (processBlock ctx s b).1.current_iteration = 0 ∧
     toolIters (processBlock ctx s b).2 = []) ∨
    (toolIters (processBlock ctx s b).2).head? = some 1 := by
  cases b with
  | thinking t =>
    left; simp only [processBlock]; split_ifs <;>
      simp [toolIters, frameIteration?, hts, hit]
  | text t =>
    left; simp only [processBlock]; split_ifs <;>
      simp [toolIters, frameIteration?, hts, hit]
  | toolUse id name input =>
    right
    simp only [processBlock, if_pos (Or.inl hts : s.tool_states = [] ∨ s.current_text ≠ "")]
    split_ifs <;>
      first
        | (simp [toolIters, frameIteration?, hit]; done)
        | (simp only [toolIters, List.filterMap_append, hookFrames_no_iters,
             List.nil_append]
           simp [frameIteration?, hit])
  | toolResult tid content is_error =>
    left; simp only [processBlock]; split_ifs <;>
      simp [toolIters, frameIteration?, hts, hit]

theorem processBlocks_first (ctx : BatchCtx) (s : TurnState) (bs : List Block)
    (hts : s.tool_states = []) (hit : s.current_iteration = 0) :
    ((processBlocks ctx s bs).1.tool_states = [] ∧
     (processBlocks ctx s bs).1.current_iteration = 0 ∧
     toolIters (processBlocks ctx s bs).2 = []) ∨
    (toolIters (processBlocks ctx s bs).2).head? = some 1 := by
  induction bs generalizing s with
  | nil => left; exact ⟨hts, hit, rfl⟩
  | cons b bs ih =>
    rw [processBlocks_cons]
    dsimp only
    rcases processBlock_first ctx s b hts hit with ⟨h1, h2, h3⟩ | h
    · rcases ih (processBlock ctx s b).1 h1 h2 with ⟨g1, g2, g3⟩ | g
      · left
        refine ⟨g1, g2, ?_⟩
        rw [toolIters_append, h3, g3]
        rfl
      · right
        rw [toolIters_append, h3]
        simpa using g
    · right
      rw [toolIters_append]
      rcases hh : toolIters (processBlock ctx s b).2 with _ | ⟨x, xs⟩
      · rw [hh] at h; simp at h
      · rw [hh] at h
        simpa using h

theorem processMsg_first (s : TurnState) (m : Msg)
    (hts : s.tool_states = []) (hit : s.current_iteration = 0) :
    ((processMsg s m).1.tool_states = [] ∧
     (processMsg s m).1.current_iteration = 0 ∧
     toolIters (processMsg s m).2 = []) ∨
    (toolIters (processMsg s m).2).head? = some 1 := by
  cases m with
  | init => left; exact ⟨hts, hit, rfl⟩
  | assistant content =>
    simp only [processMsg]
    split_ifs
    · left; exact ⟨hts, hit, rfl⟩
    · exact processBlocks_first ⟨true, some s.parallel_counter⟩
        { s with parallel_counter := s.parallel_counter + 1 } content hts hit
    · exact processBlocks_first ⟨false, none⟩ s content hts hit
  | success r e n u =>
    left
    rcases u with _ | u <;> rcases r with _ | rt <;> simp only [processMsg] <;>
      (try split_ifs) <;> simp [toolIters, frameIteration?, hts, hit]

theorem processMsgs_first (s : TurnState) (msgs : List Msg)
    (hts : s.tool_states = []) (hit : s.current_iteration = 0) :
    ((processMsgs s msgs).1.tool_states = [] ∧
     (processMsgs s msgs).1.current_iteration = 0 ∧
     toolIters (processMsgs s msgs).2 = []) ∨
    (toolIters (processMsgs s msgs).2).head? = some 1 := by
  induction msgs generalizing s with
  | nil => left; exact ⟨hts, hit, rfl⟩
  | cons m ms ih =>
    rw [processMsgs_cons]
    dsimp only
    rcases processMsg_first s m hts hit with ⟨h1, h2, h3⟩ | h
    · rcases ih (processMsg s m).1 h1 h2 with ⟨g1, g2, g3⟩ | g
      · left
        refine ⟨g1, g2, ?_⟩
        rw [toolIters_append, h3, g3]
        rfl
      · right
        rw [toolIters_append, h3]
        simpa using g
    · right
      rw [toolIters_append]
      rcases hh : toolIters (processMsg s m).2 with _ | ⟨x, xs⟩
      · rw [hh] at h; simp at h
      · rw [hh] at h
        simpa using h


/-- Every `text_delta` or `thinking_delta` payload emitted for one block
has passed through the sanitizer. -/
theorem processBlock_delta_clean (ctx : BatchCtx) (s : TurnState) (b : Block) :
    ∀ f ∈ (processBlock ctx s b).2, ∀ t, deltaText? f = some t →
      hasFFFD t = false := by
  intro f hf t ht
  cases b with
  | thinking t0 =>
    simp only [processBlock] at hf
    split_ifs at hf <;> simp only [List.mem_singleton, List.not_mem_nil] at hf
    subst hf
    simp only [deltaText?, Option.some.injEq] at ht
    subst ht
    exact sanitize_utf8_text_no_fffd _
  | text t0 =>
    simp only [processBlock] at hf
    split_ifs at hf <;> simp only [List.mem_singleton, List.not_mem_nil] at hf
    subst hf
    simp only [deltaText?, Option.some.injEq] at ht
    subst ht
    exact sanitize_utf8_text_no_fffd _
  | toolUse id name input =>
    simp only [processBlock] at hf
    split_ifs at hf
    all_goals
      first
      | (simp only [List.mem_singleton] at hf; subst hf; simp [deltaText?] at ht)
      | (simp only [List.mem_append, List.mem_map, List.mem_singleton] at hf
         rcases hf with ⟨e, he, rfl⟩ | rfl
         · rw [deltaText?_hookFrame e] at ht; exact absurd ht (by simp)
         · simp [deltaText?] at ht)
  | toolResult tid content is_error =>
    simp only [processBlock] at hf
    split_ifs at hf <;>
      simp only [List.mem_cons, List.mem_singleton, List.not_mem_nil, or_false] at hf <;>
      first
        | (rcases hf with rfl | rfl <;> simp [deltaText?] at ht)
        | (subst hf; simp [deltaText?] at ht)

theorem processBlocks_delta_clean (ctx : BatchCtx) (s : TurnState) (bs : List Block) :
    ∀ f ∈ (processBlocks ctx s bs).2, ∀ t, deltaText? f = some t →
      hasFFFD t = false := by
  induction bs generalizing s with
  | nil => simp [processBlocks]
  | cons b bs ih =>
    intro f hf t ht
    rw [processBlocks_cons] at hf
    rcases List.mem_append.mp hf with h | h
    · exact processBlock_delta_clean ctx s b f h t ht
    · exact ih _ f h t ht

theorem processMsg_delta_clean (s : TurnState) (m : Msg) :
    ∀ f ∈ (processMsg s m).2, ∀ t, deltaText? f = some t →
      hasFFFD t = false := by
  intro f hf t ht
  cases m with
  | init => simp [processMsg] at hf
  | assistant content =>
    simp only [processMsg] at hf
    split_ifs at hf
    · simp at hf
    · exact processBlocks_delta_clean _ _ content f hf t ht
    · exact processBlocks_delta_clean _ _ content f hf t ht
  | success r e n u =>
    rcases u with _ | u <;> rcases r with _ | rt <;> simp only [processMsg] at hf
    · simp at hf
    · split_ifs at hf <;> simp only [List.mem_singleton, List.not_mem_nil] at hf
      subst hf
      simp only [deltaText?, Option.some.injEq] at ht
      subst ht
      exact sanitize_utf8_text_no_fffd _
    · simp only [List.nil_append, List.mem_singleton] at hf
      subst hf
      simp [deltaText?] at ht
    · split_ifs at hf <;>
        simp only [List.mem_append, List.mem_singleton, List.nil_append,
          List.mem_cons, List.not_mem_nil, or_false, false_or] at hf
      · rcases hf with rfl | rfl
        · simp only [deltaText?, Option.some.injEq] at ht
          subst ht
          exact sanitize_utf8_text_no_fffd _
        · simp [deltaText?] at ht
      · subst hf; simp [deltaText?] at ht
      · subst hf; simp [deltaText?] at ht

theorem processMsgs_delta_clean (s : TurnState) (msgs : List Msg) :
    ∀ f ∈ (processMsgs s msgs).2, ∀ t, deltaText? f = some t →
      hasFFFD t = false := by
  induction msgs generalizing s with
  | nil => simp [processMsgs]
  | cons m ms ih =>
    intro f hf t ht
    rw [processMsgs_cons] at hf
    rcases List.mem_append.mp hf with h | h
    · exact processMsg_delta_clean s m f h t ht
    · exact ih _ f h t ht

theorem retryNotices_delta_clean (n : Nat) :
    ∀ f ∈ retryNotices n, ∀ t, deltaText? f = some t → hasFFFD t = false := by
  intro f hf t ht
  simp only [retryNotices, List.mem_map, List.mem_range] at hf
  obtain ⟨i, hi, rfl⟩ := hf
  simp only [deltaText?, Option.some.injEq] at ht
  subst ht
  have h3 : i < MAX_RETRIES := lt_of_lt_of_le hi (min_le_right _ _)
  have h3n : i < 3 := by simpa [MAX_RETRIES] using h3
  interval_cases i <;> decide

/-- The trace status after handling a `success` message records the
inferred stop reason. -/
theorem processMsg_success_stop (s : TurnState) (r : Option String) (e : Bool)
    (n : Nat) (u : Option Usage) :
    (processMsg s (Msg.success r e n u)).1.stop_reason =
      some (infer_stop_reason e n) := by
  rcases u with _ | u <;> rcases r with _ | rt <;> simp only [processMsg] <;>
    (try split_ifs) <;> rfl


/-- C4 counterexample: the claim says the iteration is incremented
exactly when `tool_states` is non-empty or `current_text` is non-empty,
but at the very first tool-use block of a turn both are empty and the
code increments anyway (`if not tool_states or current_text`), which is
also what makes the first tool carry iteration 1. -/
theorem iteration_condition_counterexample :
    initialTurnState.tool_states = [] ∧ initialTurnState.current_text = "" ∧
    (processBlock ⟨false, none⟩ initialTurnState
        (Block.toolUse "toolu_1" "Read" {})).1.current_iteration =
      initialTurnState.current_iteration + 1 := by decide

/-- C4 (amended): a tool-use block increments `current_iteration` and
resets `current_text` exactly when `tool_states` is empty or
`current_text` is non-empty (and leaves both unchanged otherwise);
across all iteration-carrying tool frames of a turn the iteration is
non-decreasing; and the first tool frame of a turn carries iteration
1. -/
theorem iteration_increment_and_monotonicity :
    (∀ (ctx : BatchCtx) (s : TurnState) (id name : String) (input : ToolInput),
      ((s.tool_states = [] ∨ s.current_text ≠ "") →
        (processBlock ctx s (Block.toolUse id name input)).1.current_iteration =
          s.current_iteration + 1 ∧
        (processBlock ctx s (Block.toolUse id name input)).1.current_text = "") ∧
      (¬(s.tool_states = [] ∨ s.current_text ≠ "") →
        (processBlock ctx s (Block.toolUse id name input)).1.current_iteration =
          s.current_iteration ∧
        (processBlock ctx s (Block.toolUse id name input)).1.current_text =
          s.current_text)) ∧
    (∀ (s : TurnState) (msgs : List Msg),
      List.Chain' (· ≤ ·) (toolIters (processMsgs s msgs).2)) ∧
    (∀ (msgs : List Msg) (i : Nat),
      (toolIters (processMsgs initialTurnState msgs).2).head? = some i → i = 1) := by
  refine ⟨?_, ?_, ?_⟩
  · intro ctx s id name input
    constructor
    · intro hc
      simp only [processBlock, if_pos hc]
      split_ifs <;> simp
    · intro hc
      simp only [processBlock, if_neg hc]
      split_ifs <;> simp
  · intro s msgs
    exact (processMsgs_iters s msgs).2.1
  · intro msgs i hi
    rcases processMsgs_first initialTurnState msgs rfl rfl with ⟨_, _, h3⟩ | h
    · rw [h3] at hi; simp at hi
    · rw [h] at hi
      exact (Option.some_inj.mp hi).symm

/-- C4 witness: a second tool batch arriving after visible text
increments the iteration, evaluated through the theorem at a concrete
state. -/
theorem iteration_increment_and_monotonicity_witness :
    (processBlock ⟨false, none⟩
        { initialTurnState with
            current_text := "hello"
            tool_states := [("toolu_1", ⟨"Read", 1, none⟩)]
            current_iteration := 1 }
        (Block.toolUse "toolu_2" "Glob" {})).1.current_iteration = 1 + 1 ∧
    (processBlock ⟨false, none⟩
        { initialTurnState with
            current_text := "hello"
            tool_states := [("toolu_1", ⟨"Read", 1, none⟩)]
            current_iteration := 1 }
        (Block.toolUse "toolu_2" "Glob" {})).1.current_text = "" :=
  (iteration_increment_and_monotonicity.1 ⟨false, none⟩
    { initialTurnState with
        current_text := "hello"
        tool_states := [("toolu_1", ⟨"Read", 1, none⟩)]
        current_iteration := 1 }
    "toolu_2" "Glob" {}).1 (Or.inr (by decide))

/-- C5: every turn ends with exactly one terminal frame
(`message_complete` on the normal path, `error` on the exception or
retry-exhaustion path), no earlier frame is terminal, and the trace is
finalized with status `completed` exactly for `message_complete` and
`error` exactly for an `error` terminal frame. -/
theorem terminal_frame_exactly_one (failures : Nat) (msgs : List Msg)
    (send : StreamEnd) :
    ∃ pre f, (process_agent_stream failures msgs send).1 = pre ++ [f] ∧
      (∀ g ∈ pre, isTerminal g = false) ∧ isTerminal f = true ∧
      ((process_agent_stream failures msgs send).2 = TraceStatus.completed ∧
        (∃ tu tt sr, f = Frame.message_complete tu tt sr) ∨
       (process_agent_stream failures msgs send).2 = TraceStatus.error ∧
        ∃ m, f = Frame.error m) := by
  simp only [process_agent_stream]
  by_cases hmr : MAX_RETRIES < failures
  · rw [if_pos hmr]
    refine ⟨Frame.session_config :: retryNotices failures,
      Frame.error "retries exhausted", by simp, ?_, rfl,
      Or.inr ⟨rfl, "retries exhausted", rfl⟩⟩
    intro g hg
    rcases List.mem_cons.mp hg with rfl | hg
    · rfl
    · exact retryNotices_not_terminal failures g hg
  · rw [if_neg hmr]
    have hpre : ∀ g ∈ Frame.session_config ::
        (retryNotices failures ++ (processMsgs initialTurnState msgs).2),
        isTerminal g = false := by
      intro g hg
      rcases List.mem_cons.mp hg with rfl | hg
      · rfl
      · rcases List.mem_append.mp hg with hg | hg
        · exact retryNotices_not_terminal failures g hg
        · exact processMsgs_not_terminal initialTurnState msgs g hg
    cases send with
    | ok =>
      refine ⟨Frame.session_config ::
          (retryNotices failures ++ (processMsgs initialTurnState msgs).2),
        Frame.message_complete (processMsgs initialTurnState msgs).1.tools_used.dedup
          ((processMsgs initialTurnState msgs).1.total_input_tokens +
            (processMsgs initialTurnState msgs).1.total_output_tokens)
          (processMsgs initialTurnState msgs).1.stop_reason,
        by simp, hpre, rfl, Or.inl ⟨rfl, _, _, _, rfl⟩⟩
    | exc e =>
      refine ⟨Frame.session_config ::
          (retryNotices failures ++ (processMsgs initialTurnState msgs).2),
        Frame.error e, by simp, hpre, rfl, Or.inr ⟨rfl, e, rfl⟩⟩

/-- C5 witness: the theorem applied to a concrete turn (no retries, no
messages, normal stream end). -/
theorem terminal_frame_exactly_one_witness :
    ∃ pre f, (process_agent_stream 0 [] StreamEnd.ok).1 = pre ++ [f] ∧
      (∀ g ∈ pre, isTerminal g = false) ∧ isTerminal f = true ∧
      ((process_agent_stream 0 [] StreamEnd.ok).2 = TraceStatus.completed ∧
        (∃ tu tt sr, f = Frame.message_complete tu tt sr) ∨
       (process_agent_stream 0 [] StreamEnd.ok).2 = TraceStatus.error ∧
        ∃ m, f = Frame.error m) :=
  terminal_frame_exactly_one 0 [] StreamEnd.ok

/-- C6: no `text_delta` or `thinking_delta` frame of a turn carries a
U+FFFD replacement character: the per-block deltas and the final-result
flush are sanitized (`sanitize_utf8_text` removes every run of
replacement characters, of any length), and the retry notices never
contain one. -/
theorem delta_frames_no_replacement_char (failures : Nat) (msgs : List Msg)
    (send : StreamEnd) :
    ∀ f ∈ (process_agent_stream failures msgs send).1, ∀ t,
      deltaText? f = some t → hasFFFD t = false := by
  intro f hf t ht
  simp only [process_agent_stream] at hf
  by_cases hmr : MAX_RETRIES < failures
  · rw [if_pos hmr] at hf
    rcases List.mem_cons.mp hf with rfl | hf
    · simp [deltaText?] at ht
    · rcases List.mem_append.mp hf with hf | hf
      · exact retryNotices_delta_clean failures f hf t ht
      · simp only [List.mem_singleton] at hf
        subst hf
        simp [deltaText?] at ht
  · rw [if_neg hmr] at hf
    cases send with
    | ok =>
      rcases List.mem_cons.mp hf with rfl | hf
      · simp [deltaText?] at ht
      · rcases List.mem_append.mp hf with hf | hf
        · rcases List.mem_append.mp hf with hf | hf
          · exact retryNotices_delta_clean failures f hf t ht
          · exact processMsgs_delta_clean initialTurnState msgs f hf t ht
        · simp only [List.mem_singleton] at hf
          subst hf
          simp [deltaText?] at ht
    | exc e =>
      rcases List.mem_cons.mp hf with rfl | hf
      · simp [deltaText?] at ht
      · rcases List.mem_append.mp hf with hf | hf
        · rcases List.mem_append.mp hf with hf | hf
          · exact retryNotices_delta_clean failures f hf t ht
          · exact processMsgs_delta_clean initialTurnState msgs f hf t ht
        · simp only [List.mem_singleton] at hf
          subst hf
          simp [deltaText?] at ht

/-- C6 witness: the first retry notice is a `text_delta` frame of a
concrete turn, and through the theorem it carries no replacement
character. -/
theorem delta_frames_no_replacement_char_witness :
    Frame.text_delta (retry_notice 1) ∈ (process_agent_stream 1 [] StreamEnd.ok).1 ∧
    hasFFFD (retry_notice 1) = false :=
  ⟨by decide,
   delta_frames_no_replacement_char 1 [] StreamEnd.ok
     (Frame.text_delta (retry_notice 1)) (by decide) (retry_notice 1) rfl⟩

/-- C7: on a `success` completion the stop reason is `error` when the
runtime reports an error, else `max_turns` when `num_turns` reaches
`MAX_TURNS = 30`, else `end_turn`; and a turn whose last message is the
`success` message ends with a `message_complete` frame carrying exactly
that stop reason. -/
theorem stop_reason_inference_and_delivery :
    MAX_TURNS = 30 ∧
    (∀ n, infer_stop_reason true n = "error") ∧
    (∀ n, MAX_TURNS ≤ n → infer_stop_reason false n = "max_turns") ∧
    (∀ n, n < MAX_TURNS → infer_stop_reason false n = "end_turn") ∧
    (∀ (failures : Nat) (msgs : List Msg) (r : Option String) (e : Bool)
        (n : Nat) (u : Option Usage), failures ≤ MAX_RETRIES →
      ∃ tu tt,
        (process_agent_stream failures (msgs ++ [Msg.success r e n u])
            StreamEnd.ok).1.getLast? =
          some (Frame.message_complete tu tt (some (infer_stop_reason e n)))) := by
  refine ⟨rfl, fun n => rfl, ?_, ?_, ?_⟩
  · intro n h
    simp [infer_stop_reason, h]
  · intro n h
    simp [infer_stop_reason, Nat.not_le.mpr h]
  · intro failures msgs r e n u hf
    have hnot : ¬ MAX_RETRIES < failures := not_lt.mpr hf
    have hsr : (processMsgs initialTurnState
        (msgs ++ [Msg.success r e n u])).1.stop_reason =
        some (infer_stop_reason e n) := by
      rw [processMsgs_append]
      dsimp only
      exact processMsg_success_stop _ r e n u
    refine ⟨(processMsgs initialTurnState
        (msgs ++ [Msg.success r e n u])).1.tools_used.dedup,
      (processMsgs initialTurnState (msgs ++ [Msg.success r e n u])).1.total_input_tokens +
        (processMsgs initialTurnState (msgs ++ [Msg.success r e n u])).1.total_output_tokens, ?_⟩
    simp only [process_agent_stream, if_neg hnot]
    rw [List.getLast?_concat, hsr]

/-- C7 witness: a plain successful completion after zero turns yields
`message_complete` with stop reason `end_turn`, through the theorem. -/
theorem stop_reason_inference_and_delivery_witness :
    ∃ tu tt,
      (process_agent_stream 0 [Msg.success none false 0 none]
          StreamEnd.ok).1.getLast? =
        some (Frame.message_complete tu tt (some (infer_stop_reason false 0))) := by
  have h := stop_reason_inference_and_delivery.2.2.2.2 0 [] none false 0 none
    (by decide)
  simpa using h

/-- C8: the retry loop uses `MAX_RETRIES = 3`, `INITIAL_RETRY_DELAY = 1`
second and `MAX_RETRY_DELAY = 10` seconds; the delay before the k-th
retry is `min(INITIAL_RETRY_DELAY * 2 ** (k-1), MAX_RETRY_DELAY)` (so 1,
2, 4 seconds), each retry emits a `text_delta` notice, and when more
than `MAX_RETRIES` retriable failures occur the failure propagates: the
turn emits exactly the three notices and an `error` frame, with trace
status `error`. -/
theorem retry_schedule_and_exhaustion :
    MAX_RETRIES = 3 ∧ INITIAL_RETRY_DELAY = 1 ∧ MAX_RETRY_DELAY = 10 ∧
    (∀ k, retry_delay k = min (INITIAL_RETRY_DELAY * 2 ^ (k - 1)) MAX_RETRY_DELAY) ∧
    (∀ k, (retry_delay_nat k : ℚ) = retry_delay k) ∧
    retry_delay 1 = 1 ∧ retry_delay 2 = 2 ∧ retry_delay 3 = 4 ∧
    (∀ (failures : Nat) (msgs : List Msg) (send : StreamEnd),
      failures ≤ MAX_RETRIES →
      (process_agent_stream failures msgs send).1.take (1 + failures) =
        Frame.session_config ::
          (List.range failures).map (fun i => Frame.text_delta (retry_notice (i + 1)))) ∧
    (∀ (failures : Nat) (msgs : List Msg) (send : StreamEnd),
      MAX_RETRIES < failures →
      (process_agent_stream failures msgs send).1 =
        Frame.session_config ::
          ((List.range MAX_RETRIES).map (fun i => Frame.text_delta (retry_notice (i + 1))) ++
            [Frame.error "retries exhausted"]) ∧
      (process_agent_stream failures msgs send).2 = TraceStatus.error) := by
  have hcast : ∀ k, ((retry_delay_nat k : ℚ)) = retry_delay k := by
    intro k
    unfold retry_delay retry_delay_nat INITIAL_RETRY_DELAY MAX_RETRY_DELAY
    push_cast
    norm_num
  have hd1 : retry_delay 1 = 1 := by
    norm_num [retry_delay, INITIAL_RETRY_DELAY, MAX_RETRY_DELAY]
  have hd2 : retry_delay 2 = 2 := by
    norm_num [retry_delay, INITIAL_RETRY_DELAY, MAX_RETRY_DELAY]
  have hd3 : retry_delay 3 = 4 := by
    norm_num [retry_delay, INITIAL_RETRY_DELAY, MAX_RETRY_DELAY]
  refine ⟨rfl, rfl, rfl, fun k => rfl, hcast, hd1, hd2, hd3, ?_, ?_⟩
  · intro failures msgs send hf
    have hnot : ¬ MAX_RETRIES < failures := not_lt.mpr hf
    have hmin : min failures MAX_RETRIES = failures := Nat.min_eq_left hf
    have hlen : (Frame.session_config :: retryNotices failures).length = 1 + failures := by
      simp [retryNotices, hmin, Nat.add_comm]
    cases send with
    | ok =>
      simp only [process_agent_stream, if_neg hnot]
      rw [List.append_assoc, List.take_left' hlen]
      simp [retryNotices, hmin]
    | exc e =>
      simp only [process_agent_stream, if_neg hnot]
      rw [List.append_assoc, List.take_left' hlen]
      simp [retryNotices, hmin]
  · intro failures msgs send hf
    have hmin : min failures MAX_RETRIES = MAX_RETRIES :=
      Nat.min_eq_right (le_of_lt hf)
    constructor
    · simp only [process_agent_stream, if_pos hf]
      simp [retryNotices, hmin]
    · simp [process_agent_stream, if_pos hf]

/-- C8 witness: two retriable failures produce two notices right after
`session_config`; four failures exhaust the retries and end in an
`error` frame, both through the theorem. -/
theorem retry_schedule_and_exhaustion_witness :
    (process_agent_stream 2 [] StreamEnd.ok).1.take 3 =
      [Frame.session_config, Frame.text_delta (retry_notice 1),
        Frame.text_delta (retry_notice 2)] ∧
    (process_agent_stream 4 [] StreamEnd.ok).2 = TraceStatus.error := by
  constructor
  · have h := retry_schedule_and_exhaustion.2.2.2.2.2.2.2.2.1 2 [] StreamEnd.ok
      (by decide)
    simpa using h
  · exact (retry_schedule_and_exhaustion.2.2.2.2.2.2.2.2.2 4 [] StreamEnd.ok
      (by decide)).2

end PrismAgent
